import Mathlib

set_option maxHeartbeats 1000000

/-!
Shallow embedding of `src/editor.py` (the `moti` terminal modal editor).

Python strings that hold buffer text and file contents are modelled as
`List Char`; file-system paths, file names and status messages stay `String`.
The curses screen, which the handlers never read apart from `getmaxyx`
(whose result is unused by the key handlers), is omitted.  The file system
is passed explicitly: file contents as `String → Option (List Char)`
(`none` models `FileNotFoundError`), directory structure as an `FSNode`
tree whose `readable` flag models `PermissionError` on `os.listdir`.
-/

/-- A buffer line: one Python string without line terminators. -/
abbrev Line := List Char

/-- Python `ord` for single characters. -/
def ord (c : Char) : Nat := c.toNat

/-- curses key code `KEY_DOWN`. -/
def KEY_DOWN : Nat := 258

/-- curses key code `KEY_UP`. -/
def KEY_UP : Nat := 259

/-- curses key code `KEY_LEFT`. -/
def KEY_LEFT : Nat := 260

/-- curses key code `KEY_RIGHT`. -/
def KEY_RIGHT : Nat := 261

/-- curses key code `KEY_BACKSPACE`. -/
def KEY_BACKSPACE : Nat := 263

/-- curses key code `KEY_ENTER`. -/
def KEY_ENTER : Nat := 343

/-- Python `list.insert(n, a)`: an index past the end appends. -/
def insertAt : List α → Nat → α → List α
  | l, 0, a => a :: l
  | [], _ + 1, a => [a]
  | x :: xs, n + 1, a => x :: insertAt xs n a

/-- The list left behind by Python `list.pop(n)` (the popped value is read
separately where the source uses it). -/
def removeAt : List α → Nat → List α
  | [], _ => []
  | _ :: xs, 0 => xs
  | x :: xs, n + 1 => x :: removeAt xs n

/-- Python `f.readlines()`: split the content after each newline character,
each chunk keeping its terminator; a last chunk without one is kept too. -/
def readlines : List Char → List (List Char)
  | [] => []
  | c :: rest =>
    if c = '\n' then ['\n'] :: readlines rest
    else
      match readlines rest with
      | [] => [[c]]
      | l :: ls => (c :: l) :: ls

/-- Python `line.rstrip('\n')`: drop every trailing newline character. -/
def rstripNl (l : List Char) : List Char :=
  (l.reverse.dropWhile (fun c => c = '\n')).reverse

/-- The bytes `save_file` writes: each buffer line followed by one `'\n'`. -/
def saveContent (lines : List Line) : List Char :=
  lines.flatMap (fun l => l ++ ['\n'])

/-- The line list `__init__` and `load_file` build from file content:
`readlines`, `rstrip('\n')` on each, and `[""]` if the result is empty. -/
def linesOfContent (content : List Char) : List Line :=
  let ls := (readlines content).map rstripNl
  if ls.isEmpty then [[]] else ls

/-- One entry of `self.tree_items` as built by `_get_tree_items`. -/
structure TreeItem where
  path : String
  pfx : String
  is_dir : Bool
deriving DecidableEq, Repr

/-- The directory structure seen by `_get_tree_items`: a named node, either a
file or a directory; `readable = false` models `os.listdir` raising
`PermissionError`. -/
inductive FSNode where
  | file (name : String)
  | dir (name : String) (readable : Bool) (children : List FSNode)

/-- The entry name of a node. -/
def FSNode.name : FSNode → String
  | .file n => n
  | .dir n _ _ => n

/-- `os.path.isdir` on a node. -/
def FSNode.isDir : FSNode → Bool
  | .file _ => false
  | .dir _ _ _ => true

/-- `os.path.join` for a relative entry name. -/
def joinPath (p n : String) : String := p ++ "/" ++ n

/-- The comparison Python `sorted` uses on the entry names. -/
def nodeLe (a b : FSNode) : Prop := a.name ≤ b.name

instance : DecidableRel nodeLe := fun a b =>
  (inferInstance : Decidable (a.name ≤ b.name))

instance : IsTotal FSNode nodeLe := ⟨fun a b => le_total a.name b.name⟩

instance : IsTrans FSNode nodeLe := ⟨fun _ _ _ h h' => le_trans h h'⟩

/-- Python `sorted` on nodes, comparing entry names. -/
def sortNodes (l : List FSNode) : List FSNode := List.insertionSort nodeLe l

/-- `Editor._get_tree_items(path, prefix)`: depth-first pre-order walk of the
directory at `path` (given as the node `n`), directories first then files,
each group sorted by name, recursing only into directories whose full path is
in `expanded`, each recursion level adding two spaces of indent; a
`PermissionError` yields one synthetic leaf entry instead. -/
def getTreeItems (expanded : List String) (path pfx : String) : FSNode → List TreeItem
  | .file _ => []
  | .dir _ false _ => [⟨joinPath path "[Permission Denied]", pfx, false⟩]
  | .dir _ true children =>
    let ordered := sortNodes (children.filter FSNode.isDir) ++
      sortNodes (children.filter fun c => !c.isDir)
    ordered.attach.flatMap fun c =>
      ⟨joinPath path c.1.name, pfx, c.1.isDir⟩ ::
        (if c.1.isDir = true ∧ joinPath path c.1.name ∈ expanded then
          getTreeItems expanded (joinPath path c.1.name) (pfx ++ "  ") c.1
        else [])
termination_by n => sizeOf n
decreasing_by
  have h1 : c.1 ∈ sortNodes (children.filter FSNode.isDir) ++
      sortNodes (children.filter fun c => !c.isDir) := c.2
  have h2 : c.1 ∈ children := by
    rcases List.mem_append.mp h1 with h | h
    · exact (List.mem_filter.mp ((List.mem_insertionSort nodeLe).mp h)).1
    · exact (List.mem_filter.mp ((List.mem_insertionSort nodeLe).mp h)).1
  have h3 : sizeOf c.1 < sizeOf children := List.sizeOf_lt_of_mem h2
  simp only [FSNode.dir.sizeOf_spec]
  omega

/-- Editing mode (`self.mode`). -/
inductive Mode where
  | normal
  | insert
  | command
deriving DecidableEq, Repr

/-- The mutable state of the `Editor` class (screen handle omitted). -/
structure Editor where
  filename : Option String
  lines : List Line
  row : Nat
  col : Nat
  mode : Mode
  command_buffer : String
  should_exit : Bool
  tree_view_active : Bool
  tree_width : Nat
  current_path : String
  tree_scroll_pos : Int
  selected_item_index : Int
  expanded_dirs : List String
  tree_items : List TreeItem
deriving DecidableEq, Repr

/-- `Editor.__init__(stdscr, filename)`: read the file when a name is given
and it exists, fall back to one empty line, and initialise the tree state
rooted at the working directory `cwd`. -/
def initEditor (fs : String → Option (List Char)) (cwd : String)
    (fname : Option String) : Editor :=
  let ls : List Line :=
    match fname with
    | some f =>
      match fs f with
      | some content => (readlines content).map rstripNl
      | none => []
    | none => []
  { filename := fname
    lines := if ls.isEmpty then [[]] else ls
    row := 0
    col := 0
    mode := .normal
    command_buffer := ""
    should_exit := false
    tree_view_active := true
    tree_width := 30
    current_path := cwd
    tree_scroll_pos := 0
    selected_item_index := 0
    expanded_dirs := [cwd]
    tree_items := [] }

/-- `self.lines[self.row]` (in range whenever the buffer invariants hold). -/
def currentLine (e : Editor) : Line := e.lines.getD e.row []

/-- The data-model invariants of a buffer: at least the cursor bounds
`0 ≤ row < len(lines)` and `0 ≤ col ≤ len(lines[row])` (the lower bounds are
built into `Nat`). -/
def Invariant (e : Editor) : Prop :=
  e.row < e.lines.length ∧ e.col ≤ (currentLine e).length

/-- `Editor.handle_normal_mode_key(key)`.  The blocking `getch` inside the
`'d'` branch is modelled by the extra argument `nextKey`, which is consumed
only there. -/
def handleNormalModeKey (key nextKey : Nat) (e : Editor) : Editor :=
  let n := (currentLine e).length
  if key = ord 'h' ∨ key = KEY_LEFT then
    { e with col := e.col - 1 }
  else if key = ord 'l' ∨ key = KEY_RIGHT then
    { e with col := min n (e.col + 1) }
  else if key = ord 'j' ∨ key = KEY_DOWN then
    let row' := min (e.lines.length - 1) (e.row + 1)
    { e with row := row', col := min (e.lines.getD row' []).length e.col }
  else if key = ord 'k' ∨ key = KEY_UP then
    let row' := e.row - 1
    { e with row := row', col := min (e.lines.getD row' []).length e.col }
  else if key = ord 'i' then
    { e with mode := .insert }
  else if key = ord 'x' then
    if e.col < (e.lines.getD e.row []).length then
      { e with lines := e.lines.set e.row (removeAt (e.lines.getD e.row []) e.col) }
    else e
  else if key = ord 'd' then
    if nextKey = ord 'd' then
      if e.lines.length > 1 then
        let ls := removeAt e.lines e.row
        let row' := if e.row ≥ ls.length then ls.length - 1 else e.row
        { e with lines := ls, row := row', col := min e.col (ls.getD row' []).length }
      else
        { e with lines := [[]], row := 0, col := 0 }
    else e
  else if key = ord 'o' then
    { e with lines := insertAt e.lines (e.row + 1) [], row := e.row + 1,
             col := 0, mode := .insert }
  else if key = ord 'O' then
    { e with lines := insertAt e.lines e.row [], col := 0, mode := .insert }
  else if key = ord ':' then
    { e with mode := .command, command_buffer := "" }
  else if key = 9 then
    { e with tree_view_active := !e.tree_view_active }
  else e

/-- `Editor.handle_insert_mode_key(key)`. -/
def handleInsertModeKey (key : Nat) (e : Editor) : Editor :=
  let cur := currentLine e
  if key = KEY_BACKSPACE ∨ key = 127 ∨ key = 8 then
    if e.col > 0 then
      { e with lines := e.lines.set e.row (cur.take (e.col - 1) ++ cur.drop e.col),
               col := e.col - 1 }
    else if e.row > 0 then
      let popped := e.lines.getD e.row []
      let ls := removeAt e.lines e.row
      let row' := e.row - 1
      { e with lines := ls.set row' ((ls.getD row' []) ++ popped),
               row := row', col := (ls.getD row' []).length }
    else e
  else if key = KEY_ENTER ∨ key = 10 then
    if e.col = (e.lines.getD e.row []).length then
      { e with lines := insertAt e.lines (e.row + 1) [], row := e.row + 1, col := 0 }
    else
      let before := (e.lines.getD e.row []).take e.col
      let after := (e.lines.getD e.row []).drop e.col
      { e with lines := insertAt (e.lines.set e.row before) (e.row + 1) after,
               row := e.row + 1, col := 0 }
  else if key = 27 then
    { e with mode := .normal }
  else if key = KEY_LEFT then
    { e with col := e.col - 1 }
  else if key = KEY_RIGHT then
    { e with col := min (e.lines.getD e.row []).length (e.col + 1) }
  else if key = KEY_UP then
    let row' := e.row - 1
    { e with row := row', col := min (e.lines.getD row' []).length e.col }
  else if key = KEY_DOWN then
    let row' := min (e.lines.length - 1) (e.row + 1)
    { e with row := row', col := min (e.lines.getD row' []).length e.col }
  else if 32 ≤ key ∧ key ≤ 126 then
    { e with lines := e.lines.set e.row
               (cur.take e.col ++ Char.ofNat key :: cur.drop e.col),
             col := e.col + 1 }
  else e

/-- `Editor.save_file(filename)`: choose the target name (a `""` argument is
falsy in Python and falls back to `self.filename`, as does `none`), report
when none is known, otherwise record the write (assumed to succeed) in the
status message and in `self.filename`. -/
def saveFile (fnameArg : Option String) (e : Editor) : Editor :=
  let target : Option String :=
    match fnameArg with
    | some f => if f = "" then e.filename else some f
    | none => e.filename
  match target with
  | none => { e with command_buffer := "No filename. Use :w <filename>" }
  | some t => { e with command_buffer := "Saved to " ++ t, filename := some t }

/-- `Editor.load_file(filename)`: re-read the file from disk, reset the
cursor and record the name; a missing file only sets a status message. -/
def loadFile (fs : String → Option (List Char)) (fname : String) (e : Editor) : Editor :=
  match fs fname with
  | some content =>
    { e with lines := linesOfContent content, row := 0, col := 0,
             filename := some fname, command_buffer := "Loaded " ++ fname }
  | none => { e with command_buffer := "File not found: " ++ fname }

/-- Python `str.startswith(pre)`. -/
def startsWithPy (s pre : String) : Bool := pre.data.isPrefixOf s.data

/-- Python slicing `s[n:]` (by characters). -/
def dropPy (s : String) (n : Nat) : String := ⟨s.data.drop n⟩

/-- A Python whitespace character, as far as `str.strip()` is concerned. -/
def isWS (c : Char) : Bool := c = ' ' ∨ c = '\t' ∨ c = '\n' ∨ c = '\r'

/-- Python `str.strip()`. -/
def stripPy (s : String) : String :=
  ⟨((s.data.dropWhile isWS).reverse.dropWhile isWS).reverse⟩

/-- `Editor.execute_command(command)`. -/
def executeCommand (fs : String → Option (List Char)) (command : String)
    (e : Editor) : Editor :=
  if command = "w" then saveFile none e
  else if command = "q" then { e with should_exit := true }
  else if command = "wq" then
    let e2 := saveFile none e
    { e2 with should_exit := true }
  else if startsWithPy command "w " then saveFile (some (stripPy (dropPy command 2))) e
  else if startsWithPy command "e " then loadFile fs (stripPy (dropPy command 2)) e
  else e

/-- Python indexing `l[i]`, with negative indices counting from the end;
`none` models an `IndexError`. -/
def pyGet (l : List α) (i : Int) : Option α :=
  if 0 ≤ i then l.get? i.toNat
  else if (-i).toNat ≤ l.length then l.get? (l.length - (-i).toNat) else none

/-- `Editor.handle_tree_view_key(key)`.  `root` is the directory node at
`self.current_path`, `fs` the file contents; `none` models an uncaught
`IndexError` (unreachable through the guarded branches). -/
def handleTreeViewKey (root : FSNode) (fs : String → Option (List Char))
    (key : Nat) (e : Editor) : Option Editor :=
  if key = ord 'j' ∨ key = KEY_DOWN then
    let i := min ((e.tree_items.length : Int) - 1) (e.selected_item_index + 1)
    some { e with selected_item_index := i }
  else if key = ord 'k' ∨ key = KEY_UP then
    some { e with selected_item_index := max 0 (e.selected_item_index - 1) }
  else if key = KEY_ENTER ∨ key = 10 then
    if e.selected_item_index < (e.tree_items.length : Int) then
      match pyGet e.tree_items e.selected_item_index with
      | none => none
      | some selected =>
        if selected.is_dir then
          let exp :=
            if selected.path ∈ e.expanded_dirs then e.expanded_dirs.erase selected.path
            else selected.path :: e.expanded_dirs
          some { e with expanded_dirs := exp,
                        tree_items := getTreeItems exp e.current_path "" root }
        else
          let e2 := loadFile fs selected.path e
          some { e2 with tree_view_active := false }
    else some e
  else if key = ord 'q' then
    some { e with should_exit := true }
  else if key = 9 then
    some { e with tree_view_active := !e.tree_view_active }
  else some e

/-! ### List helper lemmas -/

theorem length_insertAt (l : List α) (n : Nat) (a : α) (h : n ≤ l.length) :
    (insertAt l n a).length = l.length + 1 := by
  induction l generalizing n with
  | nil =>
    cases n with
    | zero => rfl
    | succ m => simp at h
  | cons x xs ih =>
    cases n with
    | zero => rfl
    | succ m =>
      simp only [insertAt, List.length_cons]
      rw [ih m (by simpa using h)]

theorem length_removeAt (l : List α) (n : Nat) (h : n < l.length) :
    (removeAt l n).length = l.length - 1 := by
  induction l generalizing n with
  | nil => simp at h
  | cons x xs ih =>
    cases n with
    | zero => rfl
    | succ m =>
      simp only [removeAt, List.length_cons]
      rw [ih m (by simpa using h)]
      have h2 : m < xs.length := by simpa using h
      omega

theorem removeAt_insertAt (l : List α) (n : Nat) (a : α) (h : n ≤ l.length) :
    removeAt (insertAt l n a) n = l := by
  induction l generalizing n with
  | nil =>
    cases n with
    | zero => rfl
    | succ m => simp at h
  | cons x xs ih =>
    cases n with
    | zero => rfl
    | succ m =>
      simp only [insertAt, removeAt, List.cons.injEq, true_and]
      exact ih m (by simpa using h)

theorem getD_insertAt_self (l : List α) (n : Nat) (a d : α) (h : n ≤ l.length) :
    (insertAt l n a).getD n d = a := by
  induction l generalizing n with
  | nil =>
    cases n with
    | zero => rfl
    | succ m => simp at h
  | cons x xs ih =>
    cases n with
    | zero => rfl
    | succ m => exact ih m (by simpa using h)

theorem set_getD_self (l : List α) (n : Nat) (d : α) (h : n < l.length) :
    l.set n (l.getD n d) = l := by
  induction l generalizing n with
  | nil => simp at h
  | cons x xs ih =>
    cases n with
    | zero => rfl
    | succ m =>
      simp only [List.getD_cons_succ, List.set_cons_succ, List.cons.injEq, true_and]
      exact ih m (by simpa using h)

theorem getD_set_self (l : List α) (n : Nat) (a d : α) (h : n < l.length) :
    (l.set n a).getD n d = a := by
  induction l generalizing n with
  | nil => simp at h
  | cons x xs ih =>
    cases n with
    | zero => rfl
    | succ m => exact ih m (by simpa using h)

theorem length_set' (l : List α) (n : Nat) (a : α) : (l.set n a).length = l.length := by
  simp

theorem attach_flatMap {α β : Type} (l : List α) (f : α → List β) :
    l.attach.flatMap (fun x => f x.1) = l.flatMap f := by
  rw [List.flatMap_def, List.flatMap_def, List.attach_map_val]

theorem removeAt_nonempty (l : List α) (n : Nat) (h : 1 < l.length) :
    removeAt l n ≠ [] := by
  cases l with
  | nil => simp at h
  | cons x xs =>
    cases n with
    | zero =>
      cases xs with
      | nil => simp at h
      | cons y ys => simp [removeAt]
    | succ m => simp [removeAt]

/-! ### List helper lemmas for the editing operations -/

/-- The normal-mode cursor-movement keys (`h/l/j/k` and the arrows). -/
def normalMoveKeys : List Nat :=
  [ord 'h', KEY_LEFT, ord 'l', KEY_RIGHT, ord 'j', KEY_DOWN, ord 'k', KEY_UP]

/-- The insert-mode cursor-movement keys (the arrows). -/
def insertMoveKeys : List Nat := [KEY_LEFT, KEY_RIGHT, KEY_UP, KEY_DOWN]

/-- One cursor-movement operation: `true` routes to the normal-mode handler,
`false` to the insert-mode handler. -/
def applyMove (op : Bool × Nat) (e : Editor) : Editor :=
  if op.1 then handleNormalModeKey op.2 0 e else handleInsertModeKey op.2 e

/-- A sequence of cursor-movement operations, applied left to right. -/
def applyMoves (ops : List (Bool × Nat)) (e : Editor) : Editor :=
  ops.foldl (fun e op => applyMove op e) e

theorem inv_vertical_mk (e : Editor) (r' : Nat) (hr : r' < e.lines.length) :
    Invariant { e with row := r', col := min ((e.lines.getD r' []).length) e.col } :=
  ⟨hr, Nat.min_le_left _ _⟩

theorem inv_normalMove (e : Editor) (k : Nat) (hk : k ∈ normalMoveKeys)
    (h : Invariant e) : Invariant (handleNormalModeKey k 0 e) := by
  obtain ⟨h1, h2⟩ := h
  simp only [normalMoveKeys, List.mem_cons, List.not_mem_nil, or_false] at hk
  rcases hk with rfl | rfl | rfl | rfl | rfl | rfl | rfl | rfl
  · exact ⟨h1, le_trans (Nat.sub_le _ _) h2⟩
  · exact ⟨h1, le_trans (Nat.sub_le _ _) h2⟩
  · exact ⟨h1, Nat.min_le_left _ _⟩
  · exact ⟨h1, Nat.min_le_left _ _⟩
  · exact inv_vertical_mk e (min (e.lines.length - 1) (e.row + 1)) (by omega)
  · exact inv_vertical_mk e (min (e.lines.length - 1) (e.row + 1)) (by omega)
  · exact inv_vertical_mk e (e.row - 1) (by omega)
  · exact inv_vertical_mk e (e.row - 1) (by omega)

theorem inv_insertMove (e : Editor) (k : Nat) (hk : k ∈ insertMoveKeys)
    (h : Invariant e) : Invariant (handleInsertModeKey k e) := by
  obtain ⟨h1, h2⟩ := h
  simp only [insertMoveKeys, List.mem_cons, List.not_mem_nil, or_false] at hk
  rcases hk with rfl | rfl | rfl | rfl
  · exact ⟨h1, le_trans (Nat.sub_le _ _) h2⟩
  · exact ⟨h1, Nat.min_le_left _ _⟩
  · exact inv_vertical_mk e (e.row - 1) (by omega)
  · exact inv_vertical_mk e (min (e.lines.length - 1) (e.row + 1)) (by omega)

/-- A movement operation uses a movement key matching its mode. -/
def ValidMoveOp (op : Bool × Nat) : Prop :=
  (op.1 = true → op.2 ∈ normalMoveKeys) ∧ (op.1 = false → op.2 ∈ insertMoveKeys)

theorem inv_applyMove (e : Editor) (op : Bool × Nat) (hop : ValidMoveOp op)
    (h : Invariant e) : Invariant (applyMove op e) := by
  obtain ⟨op1, op2⟩ := op
  cases op1 with
  | true => exact inv_normalMove e op2 (hop.1 rfl) h
  | false => exact inv_insertMove e op2 (hop.2 rfl) h

instance (e : Editor) : Decidable (Invariant e) := by
  unfold Invariant
  infer_instance

instance (op : Bool × Nat) : Decidable (ValidMoveOp op) := by
  unfold ValidMoveOp
  infer_instance

/-- A sample file system with no files. -/
def fs0 : String → Option (List Char) := fun _ => none

/-- A sample freshly constructed editor. -/
def e0 : Editor := initEditor fs0 "/root" none

/-- C1: starting from a buffer satisfying the data-model invariants, every
sequence of cursor-movement operations (left/right/up/down, in normal or
insert mode) keeps `cursor_row < len(lines)` and
`cursor_col ≤ len(lines[cursor_row])` after every operation (the lower
bounds are built into `Nat`); moreover every vertical move reclamps
`cursor_col` against the destination line's length, never keeping a stale
value. -/
theorem cursor_bounds_after_moves (e : Editor) (ops : List (Bool × Nat))
    (hinv : Invariant e) (hops : ∀ op ∈ ops, ValidMoveOp op) :
    (∀ k : Nat, Invariant (applyMoves (ops.take k) e)) ∧
    (∀ key, (key = ord 'j' ∨ key = KEY_DOWN ∨ key = ord 'k' ∨ key = KEY_UP) →
      (handleNormalModeKey key 0 e).col =
        min ((e.lines.getD ((handleNormalModeKey key 0 e).row) []).length) e.col) ∧
    (∀ key, (key = KEY_UP ∨ key = KEY_DOWN) →
      (handleInsertModeKey key e).col =
        min ((e.lines.getD ((handleInsertModeKey key e).row) []).length) e.col) := by
  refine ⟨?_, ?_, ?_⟩
  · intro k
    induction ops generalizing e k with
    | nil => simpa [applyMoves] using hinv
    | cons op rest ih =>
      cases k with
      | zero => simpa [applyMoves] using hinv
      | succ m =>
        have h1 : Invariant (applyMove op e) :=
          inv_applyMove e op (hops op (by simp)) hinv
        have h2 : ∀ o ∈ rest, ValidMoveOp o := fun o ho => hops o (by simp [ho])
        simpa [applyMoves, List.foldl_cons] using ih (applyMove op e) h1 h2 m
  · intro key hkey
    rcases hkey with rfl | rfl | rfl | rfl <;> rfl
  · intro key hkey
    rcases hkey with rfl | rfl <;> rfl

/-- Witness for C1 at a concrete buffer and move sequence. -/
theorem cursor_bounds_after_moves_witness :
    Invariant (applyMoves ([(true, ord 'j'), (false, KEY_UP), (true, KEY_RIGHT)].take 3)
      { e0 with lines := [['a', 'b'], ['c']], row := 0, col := 2 }) :=
  (cursor_bounds_after_moves _ _ (by decide) (by decide)).1 3

/-- C2: the two-keystroke `dd` command.  With more than one line it removes
the line at `cursor_row` (shrinking `lines` by exactly one, never to zero),
clamps `cursor_row` to the new last valid index and `cursor_col` to the new
current line's length; with exactly one line it replaces the content by the
empty line and puts the cursor at `(0,0)`; an armed `d` followed by any
other key mutates nothing. -/
theorem delete_line_dd (e : Editor) (nextKey : Nat) (h : Invariant e) :
    (1 < e.lines.length → nextKey = ord 'd' →
      (handleNormalModeKey (ord 'd') nextKey e).lines = removeAt e.lines e.row ∧
      (handleNormalModeKey (ord 'd') nextKey e).lines.length = e.lines.length - 1 ∧
      (handleNormalModeKey (ord 'd') nextKey e).lines ≠ [] ∧
      (handleNormalModeKey (ord 'd') nextKey e).row =
        min e.row ((removeAt e.lines e.row).length - 1) ∧
      (handleNormalModeKey (ord 'd') nextKey e).col =
        min e.col (((removeAt e.lines e.row).getD
          ((handleNormalModeKey (ord 'd') nextKey e).row) []).length)) ∧
    (e.lines.length = 1 → nextKey = ord 'd' →
      handleNormalModeKey (ord 'd') nextKey e = { e with lines := [[]], row := 0, col := 0 }) ∧
    (nextKey ≠ ord 'd' → handleNormalModeKey (ord 'd') nextKey e = e) := by
  have heq : handleNormalModeKey (ord 'd') nextKey e =
      if nextKey = ord 'd' then
        if e.lines.length > 1 then
          { e with lines := removeAt e.lines e.row,
                   row := if e.row ≥ (removeAt e.lines e.row).length then
                       (removeAt e.lines e.row).length - 1
                     else e.row,
                   col := min e.col (((removeAt e.lines e.row).getD
                       (if e.row ≥ (removeAt e.lines e.row).length then
                         (removeAt e.lines e.row).length - 1
                       else e.row) []).length) }
        else { e with lines := [[]], row := 0, col := 0 }
      else e := rfl
  have hlenr : e.row < e.lines.length := h.1
  refine ⟨?_, ?_, ?_⟩
  · intro hlen hnk
    have hls : (removeAt e.lines e.row).length = e.lines.length - 1 :=
      length_removeAt e.lines e.row hlenr
    rw [heq, if_pos hnk, if_pos hlen]
    refine ⟨rfl, hls, removeAt_nonempty _ _ hlen, ?_, rfl⟩
    show (if e.row ≥ (removeAt e.lines e.row).length then
        (removeAt e.lines e.row).length - 1 else e.row) =
      min e.row ((removeAt e.lines e.row).length - 1)
    split <;> omega
  · intro hlen hnk
    rw [heq, if_pos hnk, if_neg (by omega)]
  · intro hnk
    rw [heq, if_neg hnk]

/-- Witness for C2: delete a line of a two-line buffer, see the armed `d`
cancelled by `x`, and empty out a one-line buffer. -/
theorem delete_line_dd_witness :
    (handleNormalModeKey (ord 'd') (ord 'd')
        { e0 with lines := [['a'], ['b', 'c']], row := 1, col := 2 }).lines =
      removeAt [['a'], ['b', 'c']] 1 ∧
    handleNormalModeKey (ord 'd') 120
        { e0 with lines := [['a'], ['b', 'c']], row := 1, col := 2 } =
      { e0 with lines := [['a'], ['b', 'c']], row := 1, col := 2 } ∧
    handleNormalModeKey (ord 'd') (ord 'd') { e0 with lines := [['a']] } =
      { { e0 with lines := [['a']] } with lines := [[]], row := 0, col := 0 } :=
  ⟨((delete_line_dd _ (ord 'd') (by decide)).1 (by decide) rfl).1,
   (delete_line_dd _ 120 (by decide)).2.2 (by decide),
   (delete_line_dd _ (ord 'd') (by decide)).2.1 (by decide) rfl⟩

/-- C7: splitting the current line at the cursor with the insert-mode
newline and then backspacing at column 0 of the new line restores the
original lines and cursor position exactly. -/
theorem split_then_backspace (e : Editor) (h : Invariant e) :
    (handleInsertModeKey 127 (handleInsertModeKey 10 e)).lines = e.lines ∧
    (handleInsertModeKey 127 (handleInsertModeKey 10 e)).row = e.row ∧
    (handleInsertModeKey 127 (handleInsertModeKey 10 e)).col = e.col := by
  obtain ⟨h1, h2⟩ := h
  have h2' : e.col ≤ (e.lines.getD e.row []).length := h2
  have e10 : handleInsertModeKey 10 e =
      if e.col = (e.lines.getD e.row []).length then
        { e with lines := insertAt e.lines (e.row + 1) [], row := e.row + 1, col := 0 }
      else
        { e with lines := insertAt (e.lines.set e.row ((e.lines.getD e.row []).take e.col))
                   (e.row + 1) ((e.lines.getD e.row []).drop e.col),
                 row := e.row + 1, col := 0 } := rfl
  have bseq : ∀ E : Editor, handleInsertModeKey 127 E =
      if E.col > 0 then
        { E with lines := E.lines.set E.row
                   ((E.lines.getD E.row []).take (E.col - 1) ++ (E.lines.getD E.row []).drop E.col),
                 col := E.col - 1 }
      else if E.row > 0 then
        { E with lines := (removeAt E.lines E.row).set (E.row - 1)
                   (((removeAt E.lines E.row).getD (E.row - 1) []) ++ (E.lines.getD E.row [])),
                 row := E.row - 1,
                 col := ((removeAt E.lines E.row).getD (E.row - 1) []).length }
      else E := fun E => rfl
  by_cases hc : e.col = (e.lines.getD e.row []).length
  · rw [e10, if_pos hc, bseq]
    dsimp only
    rw [if_neg (by omega), if_pos (Nat.succ_pos _)]
    have hA1 : removeAt (insertAt e.lines (e.row + 1) []) (e.row + 1) = e.lines :=
      removeAt_insertAt _ _ _ (by omega)
    have hA2 : (insertAt e.lines (e.row + 1) []).getD (e.row + 1) [] = ([] : Line) :=
      getD_insertAt_self _ _ _ _ (by omega)
    refine ⟨?_, ?_, ?_⟩
    · dsimp only
      rw [Nat.add_sub_cancel, hA1, hA2, List.append_nil, set_getD_self _ _ _ h1]
    · dsimp only
      omega
    · dsimp only
      rw [Nat.add_sub_cancel, hA1, hc]
  · rw [e10, if_neg hc, bseq]
    dsimp only
    rw [if_neg (by omega), if_pos (Nat.succ_pos _)]
    have hlt : e.col < (e.lines.getD e.row []).length := by omega
    have hB1 : removeAt (insertAt (e.lines.set e.row ((e.lines.getD e.row []).take e.col))
        (e.row + 1) ((e.lines.getD e.row []).drop e.col)) (e.row + 1) =
        e.lines.set e.row ((e.lines.getD e.row []).take e.col) :=
      removeAt_insertAt _ _ _ (by simp; omega)
    have hB2 : (insertAt (e.lines.set e.row ((e.lines.getD e.row []).take e.col))
        (e.row + 1) ((e.lines.getD e.row []).drop e.col)).getD (e.row + 1) [] =
        (e.lines.getD e.row []).drop e.col :=
      getD_insertAt_self _ _ _ _ (by simp; omega)
    have hB3 : (e.lines.set e.row ((e.lines.getD e.row []).take e.col)).getD e.row [] =
        (e.lines.getD e.row []).take e.col :=
      getD_set_self _ _ _ _ (by simp [h1])
    refine ⟨?_, ?_, ?_⟩
    · dsimp only
      rw [Nat.add_sub_cancel, hB1, hB2, hB3, List.set_set, List.take_append_drop,
        set_getD_self _ _ _ h1]
    · dsimp only
      omega
    · dsimp only
      rw [Nat.add_sub_cancel, hB1, hB3, List.length_take]
      omega

/-- Witness for C7: split `hello` at column 2 and backspace. -/
theorem split_then_backspace_witness :
    (handleInsertModeKey 127 (handleInsertModeKey 10
        { e0 with lines := [['h', 'e', 'l', 'l', 'o'], ['w']], row := 0, col := 2,
                  mode := Mode.insert })).lines = [['h', 'e', 'l', 'l', 'o'], ['w']] :=
  (split_then_backspace _ (by decide)).1

/-! ### Round-trip of the on-disk format -/

theorem dropWhile_eq_self_of_not (p : α → Bool) (l : List α)
    (h : ∀ x ∈ l, ¬ p x = true) : l.dropWhile p = l := by
  cases l with
  | nil => rfl
  | cons x xs =>
    rw [List.dropWhile_cons, if_neg (by simpa using h x (by simp))]

theorem readlines_line (l rest : List Char) (h : '\n' ∉ l) :
    readlines (l ++ '\n' :: rest) = (l ++ ['\n']) :: readlines rest := by
  induction l with
  | nil => simp [readlines]
  | cons c cs ih =>
    have hc : c ≠ '\n' := by
      intro hx
      exact h (hx ▸ List.mem_cons_self _ _)
    have h' : '\n' ∉ cs := fun hm => h (List.mem_cons_of_mem _ hm)
    simp only [List.cons_append, readlines, if_neg hc, List.append_eq]
    rw [ih h']

theorem rstripNl_line (l : List Char) (h : '\n' ∉ l) : rstripNl (l ++ ['\n']) = l := by
  unfold rstripNl
  rw [List.reverse_append]
  simp only [List.reverse_cons, List.reverse_nil, List.nil_append, List.singleton_append]
  rw [List.dropWhile_cons, if_pos (by simp)]
  rw [dropWhile_eq_self_of_not _ _ (by
    intro x hx
    simp only [decide_eq_true_eq]
    intro hxe
    exact h (hxe ▸ (List.mem_reverse.mp hx))), List.reverse_reverse]

theorem roundtrip_map (lines : List Line) (h : ∀ l ∈ lines, '\n' ∉ l) :
    (readlines (saveContent lines)).map rstripNl = lines := by
  induction lines with
  | nil => rfl
  | cons x xs ih =>
    have hx : '\n' ∉ x := h x (by simp)
    have hxs : ∀ l ∈ xs, '\n' ∉ l := fun l hl => h l (by simp [hl])
    show (readlines ((x ++ ['\n']) ++ saveContent xs)).map rstripNl = x :: xs
    rw [List.append_assoc, List.singleton_append, readlines_line x _ hx, List.map_cons,
      rstripNl_line x hx, ih hxs]

/-- C9: saving a buffer's lines to a path and loading that path back yields
exactly the same lines, for every non-empty buffer whose lines contain no
line terminator (the buffer invariant). -/
theorem save_load_roundtrip (lines : List Line) (fs : String → Option (List Char))
    (p : String) (e : Editor) (h1 : lines ≠ []) (h2 : ∀ l ∈ lines, '\n' ∉ l)
    (hfs : fs p = some (saveContent lines)) :
    (loadFile fs p e).lines = lines := by
  unfold loadFile
  rw [hfs]
  dsimp only
  unfold linesOfContent
  rw [roundtrip_map lines h2]
  simp [h1]

/-- Witness for C9 at a concrete three-line buffer. -/
theorem save_load_roundtrip_witness :
    (loadFile (fun q => if q = "f.txt" then some (saveContent [['a'], [], ['b', 'c']]) else none)
      "f.txt" e0).lines = [['a'], [], ['b', 'c']] :=
  save_load_roundtrip _ _ _ _ (by decide) (by decide) (by decide)

/-! ### The flattened tree listing -/

theorem getTreeItems_dir_true (expanded : List String) (path pfx nm : String)
    (cs : List FSNode) :
    getTreeItems expanded path pfx (FSNode.dir nm true cs) =
      (sortNodes (cs.filter FSNode.isDir) ++
        sortNodes (cs.filter fun c => !c.isDir)).flatMap
        (fun c => ⟨joinPath path c.name, pfx, c.isDir⟩ ::
          (if c.isDir = true ∧ joinPath path c.name ∈ expanded then
            getTreeItems expanded (joinPath path c.name) (pfx ++ "  ") c
          else [])) := by
  rw [getTreeItems]
  exact attach_flatMap
    (sortNodes (cs.filter FSNode.isDir) ++ sortNodes (cs.filter fun c => !c.isDir))
    (fun c => ⟨joinPath path c.name, pfx, c.isDir⟩ ::
      (if c.isDir = true ∧ joinPath path c.name ∈ expanded then
        getTreeItems expanded (joinPath path c.name) (pfx ++ "  ") c
      else []))

theorem sorted_names_sortNodes (l : List FSNode) :
    List.Sorted (fun a b => a ≤ b) ((sortNodes l).map FSNode.name) := by
  have h := List.sorted_insertionSort nodeLe l
  rw [List.Sorted, List.pairwise_map]
  exact h

/-- C8: the flattened listing of a readable directory is the depth-first
pre-order walk that emits the subdirectories first and then the files, each
group sorted alphabetically by name, recursing exactly into the directories
of the expansion set with one extra indent unit (two spaces) per level; a
directory whose listing fails with a permission error contributes the single
synthetic `[Permission Denied]` leaf instead. -/
theorem tree_listing_preorder (expanded : List String) (path pfx nm : String)
    (cs : List FSNode) :
    (getTreeItems expanded path pfx (FSNode.dir nm true cs) =
      (sortNodes (cs.filter FSNode.isDir) ++
        sortNodes (cs.filter fun c => !c.isDir)).flatMap
        (fun c => ⟨joinPath path c.name, pfx, c.isDir⟩ ::
          (if c.isDir = true ∧ joinPath path c.name ∈ expanded then
            getTreeItems expanded (joinPath path c.name) (pfx ++ "  ") c
          else []))) ∧
    List.Sorted (fun a b => a ≤ b) ((sortNodes (cs.filter FSNode.isDir)).map FSNode.name) ∧
    List.Sorted (fun a b => a ≤ b)
      ((sortNodes (cs.filter fun c => !c.isDir)).map FSNode.name) ∧
    (∀ c ∈ sortNodes (cs.filter FSNode.isDir), c.isDir = true) ∧
    (∀ c ∈ sortNodes (cs.filter fun c => !c.isDir), c.isDir = false) ∧
    (getTreeItems expanded path pfx (FSNode.dir nm false cs) =
      [⟨joinPath path "[Permission Denied]", pfx, false⟩]) := by
  refine ⟨getTreeItems_dir_true expanded path pfx nm cs,
    sorted_names_sortNodes _, sorted_names_sortNodes _, ?_, ?_, ?_⟩
  · intro c hc
    exact (List.mem_filter.mp ((List.mem_insertionSort nodeLe).mp hc)).2
  · intro c hc
    have h2 := (List.mem_filter.mp ((List.mem_insertionSort nodeLe).mp hc)).2
    simpa using h2
  · rw [getTreeItems]

/-- Witness for C8, applied to the root with directories `b`, `a` and file
`c` of the spec scenario. -/
theorem tree_listing_preorder_witness : (FSNode.dir "a" true []).isDir = true :=
  (tree_listing_preorder [] "/r" "" "r"
      [FSNode.file "c", FSNode.dir "b" true [], FSNode.dir "a" true []]).2.2.2.1
    (FSNode.dir "a" true [])
    ((List.mem_insertionSort nodeLe).mpr (List.mem_filter.mpr
      ⟨List.mem_cons_of_mem _ (List.mem_cons_of_mem _ (List.mem_cons_self _ _)), rfl⟩))

/-! ### Tree activation, commands, opening files -/

/-- C10: pressing Enter in the tree view while `selected_item_index` is at or
past the end of `tree_items` is a no-op; the explicit bounds guard keeps the
activation from indexing out of range. -/
theorem tree_enter_out_of_range (root : FSNode) (fs : String → Option (List Char))
    (e : Editor) (h : (e.tree_items.length : Int) ≤ e.selected_item_index) :
    handleTreeViewKey root fs 10 e = some e := by
  simp only [handleTreeViewKey]
  rw [if_neg (by decide), if_neg (by decide), if_pos (by decide), if_neg (not_lt.mpr h)]

/-- Witness for C10: a selection index past a one-item listing. -/
theorem tree_enter_out_of_range_witness :
    handleTreeViewKey (FSNode.dir "r" true []) fs0 10
        { e0 with tree_items := [⟨"/r/x", "", false⟩], selected_item_index := 5 } =
      some { e0 with tree_items := [⟨"/r/x", "", false⟩], selected_item_index := 5 } :=
  tree_enter_out_of_range _ _ _ (by decide)

/-- C4 counterexample: `q!` is not a recognized command — executing it does
not end the session, contradicting the claim that `q!` quits
unconditionally. -/
theorem q_bang_ignored_counterexample :
    (executeCommand fs0 "q!" e0).should_exit = false := by decide

/-- C4 (amended): `q` ends the session unconditionally — the code keeps no
modified state, so there is no refusal — and `q!` is silently ignored,
leaving the whole editor state unchanged and the session running. -/
theorem quit_commands (fs : String → Option (List Char)) (e : Editor) :
    (executeCommand fs "q" e).should_exit = true ∧ executeCommand fs "q!" e = e :=
  ⟨rfl, rfl⟩

/-- A file system holding one file `a.txt` with content `x` + newline. -/
def fsA : String → Option (List Char) := fun q =>
  if q = "a.txt" then some ['x', '\n'] else none

/-- An editor with `a.txt` open and unsaved in-memory changes. -/
def eOpenA : Editor := { e0 with lines := [['m']], filename := some "a.txt" }

/-- C5 counterexample: opening `a.txt` while it is already the open file
replaces the live, modified in-memory lines with the disk content instead of
reusing them, contradicting the claim. -/
theorem reopen_reloads_counterexample :
    (loadFile fsA "a.txt" eOpenA).lines ≠ eOpenA.lines := by decide

/-- C5 (amended): opening a path always re-reads the file from disk,
replacing the single buffer's lines — even when that path is already open
with in-memory changes — and resets the cursor to `(0,0)`; the source path
stays the same, and there is no buffer collection to duplicate. -/
theorem open_always_reloads (fs : String → Option (List Char)) (p : String)
    (content : List Char) (e : Editor) (hfs : fs p = some content)
    (hopen : e.filename = some p) :
    (loadFile fs p e).lines = linesOfContent content ∧
    (loadFile fs p e).row = 0 ∧ (loadFile fs p e).col = 0 ∧
    (loadFile fs p e).filename = e.filename := by
  unfold loadFile
  rw [hfs]
  exact ⟨rfl, rfl, rfl, hopen.symm⟩

/-- Witness for C5 (amended). -/
theorem open_always_reloads_witness :
    (loadFile fsA "a.txt" eOpenA).lines = linesOfContent ['x', '\n'] ∧
    (loadFile fsA "a.txt" eOpenA).row = 0 ∧ (loadFile fsA "a.txt" eOpenA).col = 0 ∧
    (loadFile fsA "a.txt" eOpenA).filename = eOpenA.filename :=
  open_always_reloads fsA "a.txt" ['x', '\n'] eOpenA (by decide) (by decide)

/-- An editor with unsaved text and no file name. -/
def eUnsaved : Editor := { e0 with lines := [['a']] }

/-- C6 counterexample: opening a nonexistent path leaves the buffer and its
source path unchanged — no empty one-line buffer carrying the requested path
is produced, contradicting the claim. -/
theorem open_missing_counterexample :
    (loadFile fs0 "nofile.txt" eUnsaved).filename ≠ some "nofile.txt" ∧
    (loadFile fs0 "nofile.txt" eUnsaved).lines ≠ [[]] := by decide

/-- C6 (amended): opening a missing path via `load_file` only sets the
status message `File not found: <path>`, leaving lines, cursor and source
path unchanged; only at construction does a missing filename argument yield
an empty one-line buffer carrying that intended path. -/
theorem open_missing_file (fs : String → Option (List Char)) (p : String) (e : Editor)
    (cwd : String) (hfs : fs p = none) :
    loadFile fs p e = { e with command_buffer := "File not found: " ++ p } ∧
    (initEditor fs cwd (some p)).lines = [[]] ∧
    (initEditor fs cwd (some p)).filename = some p := by
  unfold loadFile initEditor
  dsimp only
  rw [hfs]
  exact ⟨rfl, rfl, rfl⟩

/-- Witness for C6 (amended). -/
theorem open_missing_file_witness :
    loadFile fs0 "nofile.txt" eUnsaved =
      { eUnsaved with command_buffer := "File not found: " ++ "nofile.txt" } ∧
    (initEditor fs0 "/root" (some "nofile.txt")).lines = [[]] ∧
    (initEditor fs0 "/root" (some "nofile.txt")).filename = some "nofile.txt" :=
  open_missing_file fs0 "nofile.txt" eUnsaved "/root" rfl

/-- An editor in insert mode with one empty line. -/
def eIns : Editor := { e0 with mode := Mode.insert }

/-- C3: evaluation of the code at the failing input.  The `Editor` state
embedded from the source has no `modified` field at all; inserting a
character mutates `lines`, and `q` still ends the session with no
unsaved-changes refusal, because no dirty state exists to consult. -/
theorem no_modified_flag_mutation_then_quit :
    (handleInsertModeKey (ord 'a') eIns).lines ≠ eIns.lines ∧
    (executeCommand fs0 "q" (handleInsertModeKey (ord 'a') eIns)).should_exit = true := by
  decide
